import Mathlib

/-!
Verification of the reconciliation engines of the portalautomacao repository.

The two Python engines (conciliacao_bancaria_contabil.py and
conciliacao_bancaria_cliente.py) are shallowly embedded below: strings are
lists of characters, monetary values are exact rationals (the cliente engine
computes in Decimal, which the rationals model exactly; the contabil engine
computes in binary floating point, which the rationals model up to rounding
that none of the proved properties depend on), and spreadsheet rows are
explicit structures.  Fallible parsing is modelled with Option.
-/

set_option allowUnsafeReducibility true

attribute [local semireducible] Rat.mul Rat.add Rat.sub Rat.inv Rat.div Rat.ofScientific

namespace Portal

/-! ### Python string primitives (ASCII fragment) -/

/-- Python whitespace characters recognised by str.strip(). -/
def isWS (c : Char) : Bool :=
  c = ' ' || c = '\t' || c = '\n' || c = '\r' || c = Char.ofNat 11 || c = Char.ofNat 12

def trimLeft (s : List Char) : List Char := s.dropWhile isWS

def trimRight (s : List Char) : List Char := (s.reverse.dropWhile isWS).reverse

/-- Python str.strip(). -/
def pstrip (s : List Char) : List Char := trimLeft (trimRight s)

/-- Python str.upper() on an ASCII character. -/
def upChar (c : Char) : Char :=
  if 'a' ≤ c ∧ c ≤ 'z' then Char.ofNat (c.toNat - 32) else c

/-- Python str.lower() on an ASCII character. -/
def lowChar (c : Char) : Char :=
  if 'A' ≤ c ∧ c ≤ 'Z' then Char.ofNat (c.toNat + 32) else c

def pupper (s : List Char) : List Char := s.map upChar

def plower (s : List Char) : List Char := s.map lowChar

def isDigitC (c : Char) : Bool := decide ('0' ≤ c ∧ c ≤ '9')

def digitVal (c : Char) : ℕ := c.toNat - 48

def digitsVal (ds : List Char) : ℕ := ds.foldl (fun a c => 10 * a + digitVal c) 0

/-! ### Numeric literal parsing (Python float(...) / Decimal(...)) -/

/-- Parse a numeric literal exponent suffix: either nothing, or an e/E
followed by an optional sign and a non-empty digit run consuming the rest. -/
def parseExp (s : List Char) : Option ℤ :=
  match s with
  | [] => some 0
  | e :: rest =>
    if e = 'e' ∨ e = 'E' then
      let p : ℤ × List Char :=
        match rest with
        | '+' :: r => (1, r)
        | '-' :: r => (-1, r)
        | r => (1, r)
      if p.2 ≠ [] ∧ p.2.all isDigitC then some (p.1 * (digitsVal p.2 : ℤ)) else none
    else none

/-- Model of Python float(...)/Decimal(...) applied to text: surrounding
whitespace, an optional sign, integer digits, an optional fractional part
(at least one digit overall) and an optional exponent.  The special values
nan/inf and underscore digit grouping are outside this rational model; no
claim below depends on them. -/
def parseNumLit (s0 : List Char) : Option ℚ :=
  let s := pstrip s0
  let sg : ℚ × List Char :=
    match s with
    | '+' :: r => (1, r)
    | '-' :: r => (-1, r)
    | r => (1, r)
  let ip := sg.2.takeWhile isDigitC
  let r1 := sg.2.dropWhile isDigitC
  let core : Option (ℚ × List Char) :=
    match r1 with
    | '.' :: r2 =>
      let fp := r2.takeWhile isDigitC
      if ip = [] ∧ fp = [] then none
      else
        some ((((digitsVal ip * 10 ^ fp.length + digitsVal fp : ℕ)) : ℚ) /
                (((10 ^ fp.length : ℕ)) : ℚ),
              r2.dropWhile isDigitC)
    | _ => if ip = [] then none else some (((digitsVal ip : ℕ) : ℚ), r1)
  match core with
  | none => none
  | some mr =>
    match parseExp mr.2 with
    | some e =>
      if 0 ≤ e then some (sg.1 * mr.1 * (((10 ^ e.toNat : ℕ)) : ℚ))
      else some (sg.1 * mr.1 / (((10 ^ (-e).toNat : ℕ)) : ℚ))
    | none => none

/-- A Python value as seen by the two amount parsers: None, a finite
number (int or float), the float NaN, or a string. -/
inductive PyVal where
  | pynone : PyVal
  | num : ℚ → PyVal
  | nan : PyVal
  | str : List Char → PyVal
deriving DecidableEq

/-! ### to_float_br (conciliacao_bancaria_contabil.py, lines 14-33) -/

/-- Separator step of to_float_br: when a comma is present, dots are
thousands separators (removed) and the comma becomes the decimal point;
otherwise the text is left untouched. -/
def sepBR (s : List Char) : List Char :=
  if ',' ∈ s then
    (s.filter (fun c => c ≠ '.')).map (fun c => if c = ',' then '.' else c)
  else s

/-- to_float_br: converts a cell value (including Brazilian-formatted text)
to a number; every failure path yields 0. -/
def to_float_br (x : PyVal) : ℚ :=
  match x with
  | .num q => q
  | .pynone => 0
  | .nan => 0
  | .str s0 =>
    let s := pstrip s0
    if s = [] ∨ plower s = ['n', 'a', 'n'] then 0
    else (parseNumLit (sepBR (s.filter (fun c => c ≠ ' ')))).getD 0

/-! ### parse_valor (conciliacao_bancaria_cliente.py, lines 126-161) -/

/-- One left-to-right pass removing occurrences of the currency marker
"R$" (Python str.replace does not rescan the seam it creates). -/
def removeRS : List Char → List Char
  | a :: b :: rest =>
    if a = 'R' ∧ b = '$' then removeRS rest else a :: removeRS (b :: rest)
  | [a] => [a]
  | [] => []

/-- Cleanup phase of parse_valor: strip, drop the currency marker, drop
every space. -/
def cleanupPV (s : List Char) : List Char :=
  (removeRS (pstrip s)).filter (fun c => c ≠ ' ')

/-- Separator step of parse_valor: dot and comma together mean Brazilian
format (dots removed, comma becomes the point); a lone comma becomes the
decimal point; otherwise the text is untouched. -/
def sepPV (s : List Char) : List Char :=
  if ',' ∈ s ∧ '.' ∈ s then
    (s.filter (fun c => c ≠ '.')).map (fun c => if c = ',' then '.' else c)
  else if ',' ∈ s then s.map (fun c => if c = ',' then '.' else c)
  else s

/-- The magnitude parse_valor computes once the D/C marker has been
removed: separator normalisation then Decimal conversion, 0 on failure. -/
def magPV (t : List Char) : ℚ := (parseNumLit (sepPV t)).getD 0

/-- parse_valor: converts a value to an exact decimal; a trailing D keeps
the sign, a trailing C negates, unparseable text yields 0.  A float NaN
argument produces Decimal NaN in Python, which has no rational
counterpart; it is represented by 0 here and no claim depends on it. -/
def parse_valor (x : PyVal) : ℚ :=
  match x with
  | .pynone => 0
  | .num q => q
  | .nan => 0
  | .str s0 =>
    if s0 = [] then 0
    else
      let t := cleanupPV s0
      match t.getLast? with
      | some 'D' => magPV (pstrip t.dropLast)
      | some 'C' => -(magPV (pstrip t.dropLast))
      | _ => magPV t

/-! ### limpar_prefixo / normalizar_texto (contabil engine, lines 36-63) -/

/-- The ordered list of common document-type prefixes. -/
def prefixosComuns : List (List Char) :=
  [['M', 'E', 'D', '-'], ['F', 'T', '-'], ['D', 'P', '-'], ['B', 'O', 'L', '-'],
   ['N', 'F', '-'], ['R', 'C', '-'], ['F', 'O', 'L', '-'],
   ['M', 'E', 'D'], ['F', 'T'], ['D', 'P'], ['B', 'O', 'L'],
   ['N', 'F'], ['R', 'C'], ['F', 'O', 'L']]

/-- First loop of limpar_prefixo: drop the first prefix of the list that
matches the uppercased text (at most one, the loop breaks). -/
def dropPrefixo (t : List Char) : List Char :=
  match prefixosComuns.find? (fun p => p.isPrefixOf (pupper t)) with
  | some p => t.drop p.length
  | none => t

def isUpperAZ (c : Char) : Bool := decide ('A' ≤ c ∧ c ≤ 'Z')

/-- re.sub("-[A-Z]$", "", t): drop a trailing hyphen-capital suffix. -/
def dropSufixoLetra (t : List Char) : List Char :=
  match t.reverse with
  | c :: a :: rest => if a = '-' ∧ isUpperAZ c then rest.reverse else t
  | _ => t

/-- Removal of a trailing hyphen followed by one or two digits (the
greedy two-digit form has priority, exactly as the anchored regex). -/
def dropSufixoDigitos (t : List Char) : List Char :=
  match t.reverse with
  | b :: a :: e :: rest =>
    if a = '-' ∧ isDigitC b then (e :: rest).reverse
    else if e = '-' ∧ isDigitC b ∧ isDigitC a then rest.reverse
    else t
  | [b, a] => if a = '-' ∧ isDigitC b then [] else t
  | _ => t

/-- limpar_prefixo (lines 36-54): strip, drop one known prefix, drop the
hyphen-letter suffix, drop the hyphen-digits suffix. -/
def limpar_prefixo (t : List Char) : List Char :=
  if t = [] then []
  else dropSufixoDigitos (dropSufixoLetra (dropPrefixo (pstrip t)))

def isAZ09 (c : Char) : Bool := decide (('A' ≤ c ∧ c ≤ 'Z') ∨ ('0' ≤ c ∧ c ≤ '9'))

/-- normalizar_texto (lines 57-63): prefix/suffix cleanup, uppercase,
strip, then keep only A-Z and 0-9. -/
def normalizar_texto (t : List Char) : List Char :=
  (pstrip (pupper (limpar_prefixo t))).filter isAZ09

/-! ### The conciliar matching engine (contabil engine, lines 267-439)

Records carry the fields ler_financeiro / ler_contabil precompute on each
row.  Dates are day numbers (an abstract timeline); a row index is kept on
each output row as a ghost annotation so coverage can be stated (the
Python engine tracks accounting rows by their dataframe index and produces
one output row per processed input row, in the same order). -/

inductive TipoFin where
  | entrada : TipoFin
  | saida : TipoFin
deriving DecidableEq

inductive TipoCont where
  | debito : TipoCont
  | credito : TipoCont
deriving DecidableEq

inductive Status where
  | ok : Status
  | divergente : Status
deriving DecidableEq

structure FinRecord where
  texto : List Char
  textoNorm : List Char
  textoNum : List Char
  idFin : List Char
  valor : ℚ
  tipo : TipoFin
  data : Option ℤ
deriving DecidableEq

structure ContRecord where
  histTxt : List Char
  histNorm : List Char
  histNum : List Char
  ident : List Char
  valor : ℚ
  tipo : TipoCont
  data : Option ℤ
deriving DecidableEq

/-- One output row of conciliar.  The two formatted date columns are
presentation text (strftime) and are omitted; the finIdx/contIdx fields
are ghost annotations recording which source row each side came from. -/
structure MatchRow where
  status : Status
  finIdx : Option ℕ
  contIdx : Option ℕ
  tipoFin : Option TipoFin
  textoFin : List Char
  valorFin : ℚ
  tipoCont : Option TipoCont
  histCont : List Char
  valorCont : ℚ
  dif : ℚ
deriving DecidableEq

/-- Contabil counterpart expected for a financial type (line 290/344). -/
def tipoEsperado : TipoFin → TipoCont
  | .entrada => .debito
  | .saida => .credito

/-- round(x, 2).  Python rounds the binary float half to even; the model
rounds the exact rational (half away from zero via Mathlib round).  The
difference can only change which index buckets are probed, which no claim
depends on. -/
def round2 (q : ℚ) : ℚ := ((round (q * 100) : ℤ) : ℚ) / 100

/-- Key of the accounting index: (rounded value, accounting type). -/
def idxKey (r : ContRecord) : ℚ × TipoCont := (round2 r.valor, r.tipo)

/-- dict.setdefault(k, []).append(j). -/
def idxInsert (m : List ((ℚ × TipoCont) × List ℕ)) (k : ℚ × TipoCont) (j : ℕ) :
    List ((ℚ × TipoCont) × List ℕ) :=
  if m.any (fun e => decide (e.1 = k)) then
    m.map (fun e => if e.1 = k then (e.1, e.2 ++ [j]) else e)
  else m ++ [(k, [j])]

/-- cont_by_val_tipo (lines 283-287): accounting rows indexed by
(rounded value, type). -/
def contByValTipo (cont : List ContRecord) : List ((ℚ × TipoCont) × List ℕ) :=
  cont.enum.foldl (fun m p => idxInsert m (idxKey p.2) p.1) []

def idxLookup (m : List ((ℚ × TipoCont) × List ℕ)) (k : ℚ × TipoCont) : List ℕ :=
  match m.find? (fun e => decide (e.1 = k)) with
  | some e => e.2
  | none => []

/-- The probed keys (lines 293-300): the rounded value itself plus, when
the tolerance admits it, the four neighbours at distance 0.01 and 0.02. -/
def candKeys (tol : ℚ) (v : ℚ) (tc : TipoCont) : List (ℚ × TipoCont) :=
  let base := round2 v
  (base, tc) ::
    (if 1 / 100 ≤ tol then
      [(round2 (base - 1 / 100), tc), (round2 (base + 1 / 100), tc),
       (round2 (base - 2 / 100), tc), (round2 (base + 2 / 100), tc)]
    else [])

/-- list(set(cand)): deduplication.  CPython set order is unspecified; the
model keeps first occurrences.  Only membership matters to any claim. -/
def dedupKeepFirst (l : List ℕ) : List ℕ :=
  l.foldl (fun acc j => if j ∈ acc then acc else acc ++ [j]) []

/-- candidatos_por_valor_tipo (lines 289-305). -/
def candidatos_por_valor_tipo (idx : List ((ℚ × TipoCont) × List ℕ)) (tol : ℚ)
    (v : ℚ) (tf : TipoFin) : List ℕ :=
  dedupKeepFirst (((candKeys tol v (tipoEsperado tf)).map (idxLookup idx)).flatten)

def matchTexto (f : FinRecord) (r : ContRecord) : Bool :=
  decide (f.textoNorm <:+: r.histNorm)

def matchNum (f : FinRecord) (r : ContRecord) : Bool :=
  f.textoNum ≠ [] && r.histNum ≠ [] && decide (f.textoNum <:+: r.histNum)

def matchId (f : FinRecord) (r : ContRecord) : Bool :=
  f.idFin ≠ [] && r.ident ≠ [] && decide (6 ≤ f.idFin.length) && decide (f.idFin <:+: r.ident)

/-- The date filter inside the candidate loop (lines 364-366): when dates
are in use and both present, the gap must be at most one day. -/
def dataOk (usarData : Bool) (df dc : Option ℤ) : Bool :=
  match usarData, df, dc with
  | true, some a, some b => decide (|a - b| ≤ 1)
  | _, _, _ => true

/-- score_match (lines 307-325). -/
def score_match (txtNorm histNorm txtNum histNum : List Char)
    (dataFin dataCont : Option ℤ) (usarData : Bool) (idFin idCont : List Char) : ℚ :=
  if txtNorm = [] ∨ histNorm = [] then 0
  else
    let cov : ℚ := min ((txtNorm.length : ℚ) / ((max histNorm.length 1 : ℕ) : ℚ)) 1
    let bInicio : ℚ := if txtNorm.isPrefixOf histNorm then 2 / 10 else 0
    let bNum : ℚ := if txtNum ≠ [] ∧ histNum ≠ [] ∧ txtNum <:+: histNum then 3 / 10 else 0
    let bId : ℚ :=
      if idFin ≠ [] ∧ idCont ≠ [] ∧ 6 ≤ idFin.length ∧ idFin <:+: idCont then 5 / 10 else 0
    let bData : ℚ :=
      match usarData, dataFin, dataCont with
      | true, some a, some b => if |a - b| = 0 then 5 / 10 else if |a - b| = 1 then 3 / 10 else 0
      | _, _, _ => 0
    cov + bInicio + bNum + bId + bData

/-- The hard filters applied to candidate j inside the loop (lines
346-373); returns the accounting record when every filter passes. -/
def eligCheck (cont : List ContRecord) (used : List ℕ) (tol : ℚ) (usarData : Bool)
    (f : FinRecord) (j : ℕ) : Option ContRecord :=
  match cont.get? j with
  | none => none
  | some r =>
    if j ∉ used ∧ |f.valor - r.valor| ≤ tol ∧ r.tipo = tipoEsperado f.tipo ∧
        dataOk usarData (if usarData then f.data else none)
          (if usarData then r.data else none) ∧
        (matchTexto f r ∨ matchNum f r ∨ matchId f r) then
      some r
    else none

/-- The best-candidate fold (lines 341-378): melhor_idx/melhor_score,
strict improvement, iteration order of the candidate list. -/
def escolherLoop (cont : List ContRecord) (used : List ℕ) (tol : ℚ) (usarData : Bool)
    (f : FinRecord) : List ℕ → Option (ℕ × ContRecord) → ℚ → Option (ℕ × ContRecord)
  | [], best, _ => best
  | j :: rest, best, bs =>
    match eligCheck cont used tol usarData f j with
    | none => escolherLoop cont used tol usarData f rest best bs
    | some r =>
      let sc := score_match f.textoNorm r.histNorm f.textoNum r.histNum
        (if usarData then f.data else none) (if usarData then r.data else none)
        usarData f.idFin r.ident
      if bs < sc then escolherLoop cont used tol usarData f rest (some (j, r)) sc
      else escolherLoop cont used tol usarData f rest best bs

def escolher (cont : List ContRecord) (used : List ℕ) (tol : ℚ) (usarData : Bool)
    (f : FinRecord) : Option (ℕ × ContRecord) :=
  escolherLoop cont used tol usarData f
    (candidatos_por_valor_tipo (contByValTipo cont) tol f.valor f.tipo) none (-1)

/-- An OK output row (lines 384-399); index fields are ghost annotations. -/
def okRow (i : ℕ) (f : FinRecord) (j : ℕ) (r : ContRecord) : MatchRow :=
  { status := .ok, finIdx := some i, contIdx := some j,
    tipoFin := some f.tipo, textoFin := f.texto, valorFin := f.valor,
    tipoCont := some r.tipo, histCont := r.histTxt, valorCont := r.valor,
    dif := |f.valor - r.valor| }

/-- A financial-side DIVERGENTE row (lines 401-416). -/
def divRowFin (i : ℕ) (f : FinRecord) : MatchRow :=
  { status := .divergente, finIdx := some i, contIdx := none,
    tipoFin := some f.tipo, textoFin := f.texto, valorFin := f.valor,
    tipoCont := none, histCont := [], valorCont := 0, dif := f.valor }

/-- An accounting-side leftover DIVERGENTE row (lines 419-437). -/
def leftRow (j : ℕ) (r : ContRecord) : MatchRow :=
  { status := .divergente, finIdx := none, contIdx := some j,
    tipoFin := none, textoFin := [], valorFin := 0,
    tipoCont := some r.tipo, histCont := r.histTxt, valorCont := r.valor,
    dif := r.valor }

/-- The noise filter (lines 332-333). -/
def skipFin (minLen : ℕ) (f : FinRecord) : Bool :=
  decide (f.textoNorm.length < minLen) && decide (f.idFin.length < minLen)

/-- The main loop of conciliar over the financial rows (lines 327-416),
threading the used accounting-row set. -/
def conciliarLoop (cont : List ContRecord) (tol : ℚ) (minLen : ℕ) (usarData : Bool) :
    List FinRecord → ℕ → List ℕ → List MatchRow × List ℕ
  | [], _, used => ([], used)
  | f :: rest, i, used =>
    if skipFin minLen f then conciliarLoop cont tol minLen usarData rest (i + 1) used
    else
      match escolher cont used tol usarData f with
      | some jr =>
        let p := conciliarLoop cont tol minLen usarData rest (i + 1) (jr.1 :: used)
        (okRow i f jr.1 jr.2 :: p.1, p.2)
      | none =>
        let p := conciliarLoop cont tol minLen usarData rest (i + 1) used
        (divRowFin i f :: p.1, p.2)

/-- The leftover pass over accounting rows (lines 419-437). -/
def sobrasCont (cont : List ContRecord) (used : List ℕ) : List MatchRow :=
  (List.range cont.length).filterMap (fun j =>
    match cont.get? j with
    | some r => if j ∈ used then none else some (leftRow j r)
    | none => none)

/-- conciliar (lines 267-439): the full output row sequence. -/
def conciliar (fin : List FinRecord) (cont : List ContRecord) (tol : ℚ) (minLen : ℕ)
    (usarData : Bool) : List MatchRow :=
  let p := conciliarLoop cont tol minLen usarData fin 0 []
  p.1 ++ sobrasCont cont p.2

/-! ### The cliente (invoice/receipt) engine -/

/-- A datetime value; comparisons go through the packed key, which is
strictly monotone in lexicographic field order over valid dates. -/
structure DateTime where
  year : ℕ
  month : ℕ
  day : ℕ
  hour : ℕ
  minute : ℕ
  second : ℕ
deriving DecidableEq

def DateTime.key (d : DateTime) : ℕ :=
  ((((d.year * 100 + d.month) * 100 + d.day) * 100 + d.hour) * 100 + d.minute) * 100 + d.second

/-- The value of the date cell of a ledger line: empty, a datetime, a
text, or some other object (a number, for instance). -/
inductive DateVal where
  | noval : DateVal
  | dt : DateTime → DateVal
  | txt : List Char → DateVal
  | other : DateVal
deriving DecidableEq

/-- %Y: exactly four digits. -/
def parse4d : List Char → Option (ℕ × List Char)
  | a :: b :: c :: d :: rest =>
    if isDigitC a ∧ isDigitC b ∧ isDigitC c ∧ isDigitC d then
      some (digitsVal [a, b, c, d], rest)
    else none
  | _ => none

/-- %m: the strptime pattern 1[0-2] | 0[1-9] | [1-9], tried in order. -/
def parseMes : List Char → Option (ℕ × List Char)
  | a :: b :: rest =>
    if a = '1' ∧ '0' ≤ b ∧ b ≤ '2' then some (10 + digitVal b, rest)
    else if a = '0' ∧ '1' ≤ b ∧ b ≤ '9' then some (digitVal b, rest)
    else if '1' ≤ a ∧ a ≤ '9' then some (digitVal a, b :: rest)
    else none
  | [a] => if '1' ≤ a ∧ a ≤ '9' then some (digitVal a, []) else none
  | [] => none

/-- %d: 3[01] | [12]\d | 0[1-9] | [1-9], tried in order. -/
def parseDia : List Char → Option (ℕ × List Char)
  | a :: b :: rest =>
    if a = '3' ∧ ('0' ≤ b ∧ b ≤ '1') then some (30 + digitVal b, rest)
    else if ('1' ≤ a ∧ a ≤ '2') ∧ isDigitC b then some (10 * digitVal a + digitVal b, rest)
    else if a = '0' ∧ '1' ≤ b ∧ b ≤ '9' then some (digitVal b, rest)
    else if '1' ≤ a ∧ a ≤ '9' then some (digitVal a, b :: rest)
    else none
  | [a] => if '1' ≤ a ∧ a ≤ '9' then some (digitVal a, []) else none
  | [] => none

/-- %H: 2[0-3] | [0-1]\d | \d, tried in order. -/
def parseHora : List Char → Option (ℕ × List Char)
  | a :: b :: rest =>
    if a = '2' ∧ ('0' ≤ b ∧ b ≤ '3') then some (20 + digitVal b, rest)
    else if ('0' ≤ a ∧ a ≤ '1') ∧ isDigitC b then some (10 * digitVal a + digitVal b, rest)
    else if isDigitC a then some (digitVal a, b :: rest)
    else none
  | [a] => if isDigitC a then some (digitVal a, []) else none
  | [] => none

/-- %M and %S: [0-5]\d | \d, tried in order. -/
def parseMinSeg : List Char → Option (ℕ × List Char)
  | a :: b :: rest =>
    if ('0' ≤ a ∧ a ≤ '5') ∧ isDigitC b then some (10 * digitVal a + digitVal b, rest)
    else if isDigitC a then some (digitVal a, b :: rest)
    else none
  | [a] => if isDigitC a then some (digitVal a, []) else none
  | [] => none

/-- A literal character of the format string. -/
def lit (c : Char) : List Char → Option (List Char)
  | x :: rest => if x = c then some rest else none
  | [] => none

/-- Whitespace in a strptime format string is compiled to the pattern
one-or-more-whitespace, so the single space of the format accepts any
non-empty whitespace run (spaces, tabs, ...). -/
def wsRun : List Char → Option (List Char)
  | c :: rest => if isWS c then some (rest.dropWhile isWS) else none
  | [] => none

def isLeap (y : ℕ) : Bool := decide ((y % 4 = 0 ∧ y % 100 ≠ 0) ∨ y % 400 = 0)

def diasNoMes (y m : ℕ) : ℕ :=
  if m = 2 then (if isLeap y then 29 else 28)
  else if m = 4 ∨ m = 6 ∨ m = 9 ∨ m = 11 then 30
  else 31

/-- datetime.strptime(s, "%Y-%m-%d %H:%M:%S"), including the validity
checks of the datetime constructor; the whole text must be consumed, and
the space of the format accepts any whitespace run. -/
def strptimeYmdHms (s : List Char) : Option DateTime := do
  let (y, r1) ← parse4d s
  let r2 ← lit '-' r1
  let (mo, r3) ← parseMes r2
  let r4 ← lit '-' r3
  let (d, r5) ← parseDia r4
  let r6 ← wsRun r5
  let (h, r7) ← parseHora r6
  let r8 ← lit ':' r7
  let (mi, r9) ← parseMinSeg r8
  let r10 ← lit ':' r9
  let (sec, r11) ← parseMinSeg r10
  if r11 = [] ∧ 1 ≤ y ∧ d ≤ diasNoMes y mo then
    some { year := y, month := mo, day := d, hour := h, minute := mi, second := sec }
  else none

/-- esta_no_intervalo (cliente engine, lines 163-181): None and
unparseable values are rejected; datetimes and parseable text are
compared against the configured window. -/
def esta_no_intervalo (inicio fim : DateTime) (d : DateVal) : Bool :=
  match d with
  | .noval => false
  | .dt dc => decide (inicio.key ≤ dc.key ∧ dc.key ≤ fim.key)
  | .txt s =>
    match strptimeYmdHms s with
    | some dc => decide (inicio.key ≤ dc.key ∧ dc.key ≤ fim.key)
    | none => false
  | .other => false

/-- One processed ledger line (the lancamento dict, lines 220-228).  The
saldo_atual cell (column L) is copied into the dict but never read again
by the engine, so it is omitted here. -/
structure Lanc where
  linha : ℕ
  data : DateVal
  lote : List Char
  historico : List Char
  debito : ℚ
  credito : ℚ
deriving DecidableEq

/-- A per-document aggregation bucket (lines 263-276 / 295-308). -/
structure Bucket where
  numero : List Char
  totalDebito : ℚ
  totalCredito : ℚ
  valorLiquido : ℚ
  lancamentos : List Lanc
deriving DecidableEq

/-- processar_nf (lines 246-276) with the identifier already extracted:
net value is debit minus credit.  The cascade of regular expressions that
extracts the identifier from the description is abstracted as a function
argument throughout (no claim depends on the concrete patterns). -/
def processar_nf (nfs : List (List Char × Bucket)) (numero : List Char) (l : Lanc) :
    List (List Char × Bucket) :=
  if nfs.any (fun e => decide (e.1 = numero)) then
    nfs.map (fun e =>
      if e.1 = numero then
        (e.1, { numero := e.2.numero,
                totalDebito := e.2.totalDebito + l.debito,
                totalCredito := e.2.totalCredito + l.credito,
                valorLiquido := (e.2.totalDebito + l.debito) - (e.2.totalCredito + l.credito),
                lancamentos := e.2.lancamentos ++ [l] })
      else e)
  else
    nfs ++ [(numero, { numero := numero, totalDebito := l.debito, totalCredito := l.credito,
                       valorLiquido := l.debito - l.credito, lancamentos := [l] })]

/-- processar_recebimento (lines 278-308): net value is credit minus
debit. -/
def processar_recebimento (recs : List (List Char × Bucket)) (numero : List Char) (l : Lanc) :
    List (List Char × Bucket) :=
  if recs.any (fun e => decide (e.1 = numero)) then
    recs.map (fun e =>
      if e.1 = numero then
        (e.1, { numero := e.2.numero,
                totalDebito := e.2.totalDebito + l.debito,
                totalCredito := e.2.totalCredito + l.credito,
                valorLiquido := (e.2.totalCredito + l.credito) - (e.2.totalDebito + l.debito),
                lancamentos := e.2.lancamentos ++ [l] })
      else e)
  else
    recs ++ [(numero, { numero := numero, totalDebito := l.debito, totalCredito := l.credito,
                        valorLiquido := l.credito - l.debito, lancamentos := [l] })]

/-- The raw cells read from one sheet row (columns B, C, D, J, K). -/
structure CellRow where
  dataCell : DateVal
  loteCell : Option (List Char)
  histCell : Option (List Char)
  debCell : PyVal
  credCell : PyVal
deriving DecidableEq

/-- Python truthiness of an optional string cell. -/
def cellTruthy : Option (List Char) → Bool
  | some s => s ≠ []
  | none => false

/-- The processing state (the nfs and recs dicts keep insertion order, as
Python dicts do). -/
structure CState where
  lancamentos : List Lanc
  nfs : List (List Char × Bucket)
  recs : List (List Char × Bucket)
deriving DecidableEq

def loteNF : List Char := ['0', '0', '8', '8', '2', '0', '0', '0', '1']

def loteREC : List Char := ['0', '0', '8', '8', '5', '0', '0', '0', '1']

def kwRECEBIM : List Char := ['R', 'E', 'C', 'E', 'B', 'I', 'M']

/-- The body of the row loop of processar_lancamentos (lines 207-240):
parse the amounts, discard the row unless its date is in the window,
record the lancamento, then route it to the NF and receipt aggregators. -/
def stepLine (extNF extRec : List Char → Option (List Char)) (inicio fim : DateTime)
    (st : CState) (rowNum : ℕ) (c : CellRow) : CState :=
  let debito := parse_valor c.debCell
  let credito := parse_valor c.credCell
  if ¬ esta_no_intervalo inicio fim c.dataCell then st
  else
    let l : Lanc := { linha := rowNum, data := c.dataCell, lote := c.loteCell.getD [],
                      historico := c.histCell.getD [], debito := debito, credito := credito }
    let st1 : CState := { st with lancamentos := st.lancamentos ++ [l] }
    let st2 : CState :=
      if cellTruthy c.histCell ∧ cellTruthy c.loteCell ∧ loteNF.isPrefixOf l.lote then
        match extNF l.historico with
        | some numero => { st1 with nfs := processar_nf st1.nfs numero l }
        | none => st1
      else st1
    if (cellTruthy c.loteCell ∧ loteREC.isPrefixOf l.lote) ∨
        (cellTruthy c.histCell ∧ decide (kwRECEBIM <:+: pupper l.historico)) then
      match extRec l.historico with
      | some numero => { st2 with recs := processar_recebimento st2.recs numero l }
      | none => st2
    else st2

/-- processar_lancamentos (lines 183-244) over a list of sheet rows with
their row numbers. -/
def processLines (extNF extRec : List Char → Option (List Char)) (inicio fim : DateTime) :
    CState → ℕ → List CellRow → CState
  | st, _, [] => st
  | st, n, c :: rest =>
    processLines extNF extRec inicio fim (stepLine extNF extRec inicio fim st n c) (n + 1) rest

/-- Total net value of the NF buckets (criar_aba_resumo, line 370). -/
def total_nfs (st : CState) : ℚ := (st.nfs.map (fun e => e.2.valorLiquido)).sum

/-- Total net value of the receipt buckets (line 371). -/
def total_recebimentos (st : CState) : ℚ := (st.recs.map (fun e => e.2.valorLiquido)).sum

/-- The final balance written by criar_aba_resumo (line 372) and recomputed
at lines 858-860. -/
def saldo_final (saldoInicial : ℚ) (st : CState) : ℚ :=
  saldoInicial + total_nfs st - total_recebimentos st

/-! ### realizar_matching (cliente engine, lines 310-342) -/

structure MatchEntry where
  nfNumero : List Char
  nfValor : ℚ
  recNumero : List Char
  recValor : ℚ
  diferenca : ℚ
deriving DecidableEq

/-- The inner receipt loop for one NF (lines 317-328): one entry is
appended for every receipt whose net value differs by less than 0.01
(there is no break and no used-set check in the source). -/
def matchesFor (nf : List Char × Bucket) (recs : List (List Char × Bucket)) :
    List MatchEntry :=
  recs.filterMap (fun rc =>
    if |nf.2.valorLiquido - rc.2.valorLiquido| < 1 / 100 then
      some { nfNumero := nf.1, nfValor := nf.2.valorLiquido, recNumero := rc.1,
             recValor := rc.2.valorLiquido,
             diferenca := nf.2.valorLiquido - rc.2.valorLiquido }
    else none)

/-- Whether a bucket has at least one partner within strict 0.01. -/
def temParceiro (b : Bucket) (outros : List (List Char × Bucket)) : Bool :=
  outros.any (fun o => decide (|b.valorLiquido - o.2.valorLiquido| < 1 / 100))

/-- The keys added to nfs_matcheadas: exactly the NF keys for which some
receipt fell within the strict tolerance. -/
def nfsMatcheadas (nfs recs : List (List Char × Bucket)) : List (List Char) :=
  (nfs.filter (fun nf => temParceiro nf.2 recs)).map (fun e => e.1)

/-- The keys added to recs_matcheados. -/
def recsMatcheados (nfs recs : List (List Char × Bucket)) : List (List Char) :=
  (recs.filter (fun rc => temParceiro rc.2 nfs)).map (fun e => e.1)

structure MatchingResult where
  matchEntries : List MatchEntry
  nao_encontrados_nf : List Bucket
  nao_encontrados_rec : List Bucket
deriving DecidableEq

/-- realizar_matching (lines 310-342): every (NF, receipt) pair within the
strict tolerance yields one match entry, then the never-matched buckets
are collected in dict order. -/
def realizar_matching (nfs recs : List (List Char × Bucket)) : MatchingResult :=
  { matchEntries := (nfs.map (fun nf => matchesFor nf recs)).flatten,
    nao_encontrados_nf :=
      (nfs.filter (fun nf => ¬ nf.1 ∈ nfsMatcheadas nfs recs)).map (fun e => e.2),
    nao_encontrados_rec :=
      (recs.filter (fun rc => ¬ rc.1 ∈ recsMatcheados nfs recs)).map (fun e => e.2) }

/-! ### Auxiliary definitions used by the statements -/

/-- The residue of the parse_valor cleanup that precedes an appended final
character: leading strip, currency-marker removal, space removal. -/
def nucleoPV (s : List Char) : List Char :=
  (removeRS (trimLeft s)).filter (fun c => c ≠ ' ')

/-- Number of output rows whose accounting-side ghost index is j. -/
def contCount (rows : List MatchRow) (j : ℕ) : ℕ :=
  rows.countP (fun row => row.contIdx == some j)

/-- Number of output rows whose financial-side ghost index is i. -/
def finCount (rows : List MatchRow) (i : ℕ) : ℕ :=
  rows.countP (fun row => row.finIdx == some i)

/-- The number of rows the financial loop is expected to emit for source
position i0 when it starts at position i: one when the record exists and
passes the noise filter, zero otherwise. -/
def finExpected (minLen : ℕ) (fin : List FinRecord) (i i0 : ℕ) : ℕ :=
  match fin.get? (i0 - i) with
  | some f => if i ≤ i0 ∧ skipFin minLen f = false then 1 else 0
  | none => 0

/-- The initial processing state of the cliente engine. -/
def emptyCState : CState := { lancamentos := [], nfs := [], recs := [] }

/-- A financial record whose normalized text and identifier are both
shorter than the default minimum length 3. -/
def finCurto : FinRecord :=
  { texto := ['A', 'B'], textoNorm := ['A', 'B'], textoNum := [], idFin := [],
    valor := 10, tipo := .entrada, data := none }

/-- A financial record with a three-letter normalized text. -/
def finABC : FinRecord :=
  { texto := ['A', 'B', 'C'], textoNorm := ['A', 'B', 'C'], textoNum := [], idFin := [],
    valor := 10, tipo := .entrada, data := none }

/-- An accounting record that finABC matches (text containment, equal
value, debit against inflow). -/
def contABCD : ContRecord :=
  { histTxt := ['A', 'B', 'C', 'D'], histNorm := ['A', 'B', 'C', 'D'], histNum := [],
    ident := [], valor := 10, tipo := .debito, data := none }

/-- An invoice bucket with net value 10. -/
def bucketNF (k : List Char) : Bucket :=
  { numero := k, totalDebito := 10, totalCredito := 0, valorLiquido := 10, lancamentos := [] }

/-- A receipt bucket with net value 10. -/
def bucketRec (k : List Char) : Bucket :=
  { numero := k, totalDebito := 0, totalCredito := 10, valorLiquido := 10, lancamentos := [] }

def nfN1 : List Char := ['N', '1']

def nfN2 : List Char := ['N', '2']

def recR1 : List Char := ['R', '1']

def recR2 : List Char := ['R', '2']

def dtJan1 : DateTime := { year := 2024, month := 1, day := 1, hour := 0, minute := 0, second := 0 }

def dtDez31 : DateTime :=
  { year := 2024, month := 12, day := 31, hour := 0, minute := 0, second := 0 }

/-- A sheet row with an empty date cell. -/
def rowSemData : CellRow :=
  { dataCell := .noval, loteCell := none, histCell := none,
    debCell := .pynone, credCell := .pynone }

/-! ### Generic list and character lemmas -/

theorem dropWhile_eq_self_of {p : Char → Bool} {l : List Char} (h : ∀ c ∈ l, p c = false) :
    l.dropWhile p = l := by
  cases l with
  | nil => rfl
  | cons a t => simp [List.dropWhile_cons, h a (List.mem_cons_self a t)]

theorem pstrip_eq_self {l : List Char} (h : ∀ c ∈ l, isWS c = false) : pstrip l = l := by
  unfold pstrip trimLeft trimRight
  rw [dropWhile_eq_self_of (fun c hc => h c (List.mem_reverse.mp hc)), List.reverse_reverse,
    dropWhile_eq_self_of h]

theorem pupper_eq_self {l : List Char} (h : ∀ c ∈ l, upChar c = c) : pupper l = l := by
  unfold pupper
  rw [List.map_congr_left h]
  exact List.map_id' l

/-! ### C4: behaviour of normalizar_texto under repetition -/

theorem mem_normalizar_isAZ09 {t : List Char} {c : Char} (h : c ∈ normalizar_texto t) :
    isAZ09 c = true := List.of_mem_filter h

theorem upChar_of_isAZ09 {c : Char} (h : isAZ09 c = true) : upChar c = c := by
  unfold upChar
  rw [if_neg]
  rintro ⟨h1, h2⟩
  rw [isAZ09, decide_eq_true_iff] at h
  rcases h with ⟨ha, hz⟩ | ⟨h0, h9⟩
  · exact absurd (le_trans h1 hz) (by decide)
  · exact absurd (le_trans h1 h9) (by decide)

theorem notWS_of_isAZ09 {c : Char} (h : isAZ09 c = true) : isWS c = false := by
  by_contra hw
  rw [Bool.not_eq_false, isWS] at hw
  rw [isAZ09, decide_eq_true_iff] at h
  simp only [Bool.or_eq_true, decide_eq_true_iff] at hw
  rcases hw with ((((hc | hc) | hc) | hc) | hc) | hc <;> rw [hc] at h <;>
    rcases h with ⟨h1, h2⟩ | ⟨h1, h2⟩ <;> revert h1 h2 <;> decide

theorem notHyphen_of_isAZ09 {c : Char} (h : isAZ09 c = true) : c ≠ '-' := by
  rintro rfl
  rw [isAZ09, decide_eq_true_iff] at h
  rcases h with ⟨h1, _⟩ | ⟨h1, _⟩ <;> revert h1 <;> decide

theorem dropSufixoLetra_eq_self {t : List Char} (h : '-' ∉ t) : dropSufixoLetra t = t := by
  unfold dropSufixoLetra
  cases hr : t.reverse with
  | nil => rfl
  | cons c rest =>
    cases rest with
    | nil => rfl
    | cons a rest2 =>
      show (if a = '-' ∧ isUpperAZ c = true then rest2.reverse else t) = t
      rw [if_neg]
      rintro ⟨rfl, _⟩
      exact h (List.mem_reverse.mp (by rw [hr]; simp))

theorem dropSufixoDigitos_eq_self {t : List Char} (h : '-' ∉ t) : dropSufixoDigitos t = t := by
  have hm : ∀ c, c ∈ t.reverse → c ≠ '-' := by
    intro c hc he
    rw [he] at hc
    exact h (List.mem_reverse.mp hc)
  unfold dropSufixoDigitos
  split
  · rename_i b a e rest hr
    rw [if_neg fun hc => hm a (by rw [hr]; simp) hc.1,
      if_neg fun hc => hm e (by rw [hr]; simp) hc.1]
  · rename_i b a hr
    rw [if_neg fun hc => hm a (by rw [hr]; simp) hc.1]
  · rfl

theorem normalizar_texto_fix {y : List Char} (hy : ∀ c ∈ y, isAZ09 c = true)
    (hp : dropPrefixo y = y) : normalizar_texto y = y := by
  have hws : ∀ c ∈ y, isWS c = false := fun c hc => notWS_of_isAZ09 (hy c hc)
  have hhy : '-' ∉ y := fun hm => notHyphen_of_isAZ09 (hy _ hm) rfl
  unfold normalizar_texto limpar_prefixo
  by_cases h0 : y = []
  · subst h0; rfl
  · rw [if_neg h0, pstrip_eq_self hws, hp, dropSufixoLetra_eq_self hhy,
      dropSufixoDigitos_eq_self hhy, pupper_eq_self (fun c hc => upChar_of_isAZ09 (hy c hc)),
      pstrip_eq_self hws, List.filter_eq_self.mpr hy]

/-- C4 counterexample: normalizing "FTFT123" gives "FT123"; a second
normalization strips the now-leading FT prefix and gives "123". -/
theorem C4_counterexample :
    normalizar_texto (normalizar_texto ['F', 'T', 'F', 'T', '1', '2', '3']) ≠
      normalizar_texto ['F', 'T', 'F', 'T', '1', '2', '3'] := by decide

/-- C4 (amended): normalizar_texto is idempotent on every input whose
normalized form does not itself begin with one of the known document-type
prefixes (equivalently, on which dropPrefixo is the identity); when the
normalized form does begin with such a prefix, a second application
strips it again, as the counterexample shows. -/
theorem C4_amended (x : List Char)
    (h : dropPrefixo (normalizar_texto x) = normalizar_texto x) :
    normalizar_texto (normalizar_texto x) = normalizar_texto x :=
  normalizar_texto_fix (fun _ hc => mem_normalizar_isAZ09 hc) h

theorem C4_witness :
    dropPrefixo (normalizar_texto ['A', 'B', 'C', '1']) = normalizar_texto ['A', 'B', 'C', '1'] ∧
    normalizar_texto (normalizar_texto ['A', 'B', 'C', '1']) =
      normalizar_texto ['A', 'B', 'C', '1'] :=
  ⟨by decide, C4_amended ['A', 'B', 'C', '1'] (by decide)⟩

/-! ### Append lemmas for the parse_valor cleanup -/

theorem dropWhile_append_single {p : Char → Bool} {s : List Char} {c : Char}
    (h : p c = false) : (s ++ [c]).dropWhile p = s.dropWhile p ++ [c] := by
  induction s with
  | nil => simp [List.dropWhile_cons, h]
  | cons a t ih => by_cases ha : p a <;> simp [List.dropWhile_cons, ha, ih]

theorem pstrip_append_single {s : List Char} {c : Char} (h : isWS c = false) :
    pstrip (s ++ [c]) = trimLeft s ++ [c] := by
  have h1 : trimRight (s ++ [c]) = s ++ [c] := by
    unfold trimRight
    rw [List.reverse_append]
    simp only [List.reverse_cons, List.reverse_nil, List.nil_append, List.singleton_append]
    rw [List.dropWhile_cons, h]
    simp
  unfold pstrip
  rw [h1]
  exact dropWhile_append_single h

theorem removeRS_append {c : Char} (h : c ≠ '$') :
    ∀ t, removeRS (t ++ [c]) = removeRS t ++ [c]
  | [] => by
    show removeRS [c] = [c]
    rfl
  | [a] => by
    show removeRS (a :: [c]) = [a] ++ [c]
    rw [removeRS, if_neg (fun hc => h hc.2)]
    rfl
  | a :: b :: rest => by
    rw [List.cons_append, List.cons_append, removeRS, removeRS]
    by_cases hab : a = 'R' ∧ b = '$'
    · rw [if_pos hab, if_pos hab, removeRS_append h rest]
    · rw [if_neg hab, if_neg hab, ← List.cons_append, removeRS_append h (b :: rest)]
      rfl

theorem cleanupPV_append {s : List Char} {c : Char} (h1 : c ≠ '$') (h2 : c ≠ ' ')
    (h3 : isWS c = false) : cleanupPV (s ++ [c]) = nucleoPV s ++ [c] := by
  unfold cleanupPV nucleoPV
  rw [pstrip_append_single h3, removeRS_append h1, List.filter_append]
  simp [h2]

/-! ### C7: the D/C sign suffix -/

/-- C7 counterexample: to_float_br does not implement the D/C marker; a D
suffix makes the text unparseable and yields the zero fallback. -/
theorem C7_counterexample :
    to_float_br (.str ['1', '0', '0', 'D']) ≠ 100 ∧
    to_float_br (.str ['1', '0', '0', 'D']) = 0 := by
  constructor <;> decide

/-- C7 (amended): in parse_valor a trailing D yields the parsed magnitude
of the remaining cleaned text and a trailing C yields its negation; the
other amount parser, to_float_br, has no D/C handling and returns 0 on
such suffixed numeric text. -/
theorem C7_amended (s : List Char) :
    parse_valor (.str (s ++ ['D'])) = magPV (pstrip (nucleoPV s)) ∧
    parse_valor (.str (s ++ ['C'])) = -magPV (pstrip (nucleoPV s)) ∧
    to_float_br (.str ['1', '0', '0', 'D']) = 0 ∧
    to_float_br (.str ['1', '0', '0', 'C']) = 0 := by
  refine ⟨?_, ?_, by decide, by decide⟩
  · have hc : cleanupPV (s ++ ['D']) = nucleoPV s ++ ['D'] :=
      cleanupPV_append (by decide) (by decide) (by decide)
    simp only [parse_valor, hc, List.getLast?_concat, List.dropLast_concat,
      List.append_eq_nil, List.cons_ne_nil, and_false, if_false]
  · have hc : cleanupPV (s ++ ['C']) = nucleoPV s ++ ['C'] :=
      cleanupPV_append (by decide) (by decide) (by decide)
    simp only [parse_valor, hc, List.getLast?_concat, List.dropLast_concat,
      List.append_eq_nil, List.cons_ne_nil, and_false, if_false]

/-! ### C8: totality and the zero fallback -/

/-- C8: both amount parsers are total functions into the exact numbers;
None and NaN inputs and every string whose cleaned text fails numeric
parsing produce 0, and the string arm of parse_valor always reduces to
one of its three magnitude forms or to 0. -/
theorem C8_fallback :
    to_float_br .pynone = 0 ∧ to_float_br .nan = 0 ∧
    (∀ s, parseNumLit (sepBR ((pstrip s).filter (fun c => c ≠ ' '))) = none →
      to_float_br (.str s) = 0) ∧
    parse_valor .pynone = 0 ∧ parse_valor (.str []) = 0 ∧
    (∀ t, parseNumLit (sepPV t) = none → magPV t = 0) ∧
    (∀ s, parse_valor (.str s) = magPV (pstrip (cleanupPV s).dropLast) ∨
      parse_valor (.str s) = -magPV (pstrip (cleanupPV s).dropLast) ∨
      parse_valor (.str s) = magPV (cleanupPV s) ∨ parse_valor (.str s) = 0) := by
  refine ⟨rfl, rfl, ?_, rfl, rfl, ?_, ?_⟩
  · intro s h
    simp only [to_float_br]
    by_cases h0 : pstrip s = [] ∨ plower (pstrip s) = ['n', 'a', 'n']
    · rw [if_pos h0]
    · rw [if_neg h0, h]
      rfl
  · intro t h
    unfold magPV
    rw [h]
    rfl
  · intro s
    simp only [parse_valor]
    by_cases h0 : s = []
    · rw [if_pos h0]
      right; right; right; rfl
    · rw [if_neg h0]
      split
      · left; rfl
      · right; left; rfl
      · right; right; left; rfl

theorem C8_witness :
    parseNumLit (sepBR ((pstrip ['a', 'b', 'c']).filter (fun c => c ≠ ' '))) = none ∧
    to_float_br (.str ['a', 'b', 'c']) = 0 ∧
    parseNumLit (sepPV ['a', 'b', 'c']) = none ∧ magPV ['a', 'b', 'c'] = 0 :=
  ⟨by decide, C8_fallback.2.2.1 ['a', 'b', 'c'] (by decide), by decide,
    C8_fallback.2.2.2.2.2.1 ['a', 'b', 'c'] (by decide)⟩

/-! ### C9: a lone dot is the decimal point -/

/-- C9: when the text contains a dot and no comma, neither separator
step rewrites it, so the dot is parsed as the decimal point: "1.000"
parses to 1 in both engines, not 1000. -/
theorem C9_ponto (s : List Char) (h1 : '.' ∈ s) (h2 : ',' ∉ s) :
    sepBR s = s ∧ sepPV s = s ∧
    to_float_br (.str ['1', '.', '0', '0', '0']) = 1 ∧
    parse_valor (.str ['1', '.', '0', '0', '0']) = 1 := by
  refine ⟨?_, ?_, by decide, by decide⟩
  · unfold sepBR
    rw [if_neg h2]
  · unfold sepPV
    rw [if_neg (fun hc => h2 hc.1), if_neg h2]

theorem C9_witness :
    '.' ∈ ['1', '.', '0', '0', '0'] ∧ ',' ∉ ['1', '.', '0', '0', '0'] ∧
    sepBR ['1', '.', '0', '0', '0'] = ['1', '.', '0', '0', '0'] ∧
    to_float_br (.str ['1', '.', '0', '0', '0']) = 1 := by
  have h := C9_ponto ['1', '.', '0', '0', '0'] (by decide) (by decide)
  exact ⟨by decide, by decide, h.1, h.2.2.1⟩

/-! ### C10: lines with missing or malformed dates are skipped -/

/-- C10: esta_no_intervalo rejects an empty cell, a non-date non-text
value, and any text the strptime format does not accept; the row loop
leaves the whole state unchanged for such a line, so it contributes no
lancamento and no bucket. -/
theorem C10_data_ruim (extNF extRec : List Char → Option (List Char)) (inicio fim : DateTime) :
    esta_no_intervalo inicio fim .noval = false ∧
    esta_no_intervalo inicio fim .other = false ∧
    (∀ s, strptimeYmdHms s = none → esta_no_intervalo inicio fim (.txt s) = false) ∧
    (∀ st n c, esta_no_intervalo inicio fim c.dataCell = false →
      stepLine extNF extRec inicio fim st n c = st) := by
  refine ⟨rfl, rfl, ?_, ?_⟩
  · intro s h
    simp only [esta_no_intervalo, h]
  · intro st n c h
    simp only [stepLine]
    rw [if_pos (by simp [h])]

theorem C10_witness :
    strptimeYmdHms ['h', 'i'] = none ∧
    esta_no_intervalo dtJan1 dtDez31 (.txt ['h', 'i']) = false ∧
    stepLine (fun _ => none) (fun _ => none) dtJan1 dtDez31 emptyCState 3 rowSemData =
      emptyCState :=
  ⟨by decide,
    (C10_data_ruim (fun _ => none) (fun _ => none) dtJan1 dtDez31).2.2.1 _ (by decide),
    (C10_data_ruim (fun _ => none) (fun _ => none) dtJan1 dtDez31).2.2.2 _ _ _ (by decide)⟩

/-! ### C6: the reported final balance -/

theorem processar_nf_inv {m : List (List Char × Bucket)} {numero : List Char} {l : Lanc}
    (h : ∀ e ∈ m, e.2.valorLiquido = e.2.totalDebito - e.2.totalCredito) :
    ∀ e ∈ processar_nf m numero l, e.2.valorLiquido = e.2.totalDebito - e.2.totalCredito := by
  intro e he
  unfold processar_nf at he
  by_cases hany : m.any (fun e => decide (e.1 = numero))
  · rw [if_pos hany] at he
    rcases List.mem_map.mp he with ⟨e0, he0, heq⟩
    by_cases hk : e0.1 = numero
    · rw [if_pos hk] at heq
      subst heq
      rfl
    · rw [if_neg hk] at heq
      subst heq
      exact h e0 he0
  · rw [if_neg hany] at he
    rcases List.mem_append.mp he with h1 | h1
    · exact h e h1
    · rw [List.mem_singleton] at h1
      subst h1
      rfl

theorem processar_recebimento_inv {m : List (List Char × Bucket)} {numero : List Char} {l : Lanc}
    (h : ∀ e ∈ m, e.2.valorLiquido = e.2.totalCredito - e.2.totalDebito) :
    ∀ e ∈ processar_recebimento m numero l,
      e.2.valorLiquido = e.2.totalCredito - e.2.totalDebito := by
  intro e he
  unfold processar_recebimento at he
  by_cases hany : m.any (fun e => decide (e.1 = numero))
  · rw [if_pos hany] at he
    rcases List.mem_map.mp he with ⟨e0, he0, heq⟩
    by_cases hk : e0.1 = numero
    · rw [if_pos hk] at heq
      subst heq
      rfl
    · rw [if_neg hk] at heq
      subst heq
      exact h e0 he0
  · rw [if_neg hany] at he
    rcases List.mem_append.mp he with h1 | h1
    · exact h e h1
    · rw [List.mem_singleton] at h1
      subst h1
      rfl

theorem stepLine_nfs_cases (extNF extRec : List Char → Option (List Char))
    (inicio fim : DateTime) (st : CState) (n : ℕ) (c : CellRow) :
    (stepLine extNF extRec inicio fim st n c).nfs = st.nfs ∨
    ∃ numero l, (stepLine extNF extRec inicio fim st n c).nfs = processar_nf st.nfs numero l := by
  simp only [stepLine]
  split
  · exact Or.inl rfl
  · repeat' split
    all_goals first
      | exact Or.inl rfl
      | exact Or.inr ⟨_, _, rfl⟩

theorem stepLine_recs_cases (extNF extRec : List Char → Option (List Char))
    (inicio fim : DateTime) (st : CState) (n : ℕ) (c : CellRow) :
    (stepLine extNF extRec inicio fim st n c).recs = st.recs ∨
    ∃ numero l, (stepLine extNF extRec inicio fim st n c).recs =
      processar_recebimento st.recs numero l := by
  simp only [stepLine]
  split
  · exact Or.inl rfl
  · repeat' split
    all_goals first
      | exact Or.inl rfl
      | exact Or.inr ⟨_, _, rfl⟩

theorem processLines_inv (extNF extRec : List Char → Option (List Char))
    (inicio fim : DateTime) :
    ∀ (rows : List CellRow) (st : CState) (n : ℕ),
      (∀ e ∈ st.nfs, e.2.valorLiquido = e.2.totalDebito - e.2.totalCredito) →
      (∀ e ∈ st.recs, e.2.valorLiquido = e.2.totalCredito - e.2.totalDebito) →
      (∀ e ∈ (processLines extNF extRec inicio fim st n rows).nfs,
        e.2.valorLiquido = e.2.totalDebito - e.2.totalCredito) ∧
      (∀ e ∈ (processLines extNF extRec inicio fim st n rows).recs,
        e.2.valorLiquido = e.2.totalCredito - e.2.totalDebito)
  | [], st, n, hn, hr => ⟨hn, hr⟩
  | c :: rest, st, n, hn, hr => by
    apply processLines_inv extNF extRec inicio fim rest _ (n + 1)
    · rcases stepLine_nfs_cases extNF extRec inicio fim st n c with h1 | ⟨num, l, h1⟩ <;>
        rw [h1]
      · exact hn
      · exact processar_nf_inv hn
    · rcases stepLine_recs_cases extNF extRec inicio fim st n c with h1 | ⟨num, l, h1⟩ <;>
        rw [h1]
      · exact hr
      · exact processar_recebimento_inv hr

/-- C6: for every run of the cliente pipeline, the reported final balance
equals exactly the initial balance plus the sum of the invoice-bucket net
values minus the sum of the receipt-bucket net values; moreover each
bucket's net value is its accumulated debit minus credit (invoices) or
credit minus debit (receipts). -/
theorem C6_saldo (extNF extRec : List Char → Option (List Char)) (inicio fim : DateTime)
    (saldoInicial : ℚ) (n : ℕ) (rows : List CellRow) :
    saldo_final saldoInicial (processLines extNF extRec inicio fim emptyCState n rows) =
      saldoInicial +
        ((processLines extNF extRec inicio fim emptyCState n rows).nfs.map
          (fun e => e.2.valorLiquido)).sum -
        ((processLines extNF extRec inicio fim emptyCState n rows).recs.map
          (fun e => e.2.valorLiquido)).sum ∧
    ((processLines extNF extRec inicio fim emptyCState n rows).nfs.all
      (fun e => e.2.valorLiquido == e.2.totalDebito - e.2.totalCredito)) = true ∧
    ((processLines extNF extRec inicio fim emptyCState n rows).recs.all
      (fun e => e.2.valorLiquido == e.2.totalCredito - e.2.totalDebito)) = true := by
  have h := processLines_inv extNF extRec inicio fim rows emptyCState n
    (by intro e he; cases he) (by intro e he; cases he)
  refine ⟨rfl, ?_, ?_⟩
  · rw [List.all_eq_true]
    intro e he
    exact beq_iff_eq.mpr (h.1 e he)
  · rw [List.all_eq_true]
    intro e he
    exact beq_iff_eq.mpr (h.2 e he)

/-! ### conciliar: facts about candidate selection -/

theorem eligCheck_some {cont : List ContRecord} {used : List ℕ} {tol : ℚ} {usarData : Bool}
    {f : FinRecord} {j : ℕ} {r : ContRecord}
    (h : eligCheck cont used tol usarData f j = some r) :
    cont.get? j = some r ∧ j ∉ used ∧ |f.valor - r.valor| ≤ tol ∧
      r.tipo = tipoEsperado f.tipo := by
  unfold eligCheck at h
  cases hget : cont.get? j with
  | none => rw [hget] at h; cases h
  | some r0 =>
    have h2 : (if j ∉ used ∧ |f.valor - r0.valor| ≤ tol ∧ r0.tipo = tipoEsperado f.tipo ∧
        dataOk usarData (if usarData then f.data else none)
          (if usarData then r0.data else none) ∧
        (matchTexto f r0 ∨ matchNum f r0 ∨ matchId f r0) then some r0 else none) = some r := by
      rw [hget] at h
      exact h
    by_cases hcond : j ∉ used ∧ |f.valor - r0.valor| ≤ tol ∧ r0.tipo = tipoEsperado f.tipo ∧
        dataOk usarData (if usarData then f.data else none)
          (if usarData then r0.data else none) ∧
        (matchTexto f r0 ∨ matchNum f r0 ∨ matchId f r0)
    · rw [if_pos hcond] at h2
      injection h2 with h1
      subst h1
      exact ⟨rfl, hcond.1, hcond.2.1, hcond.2.2.1⟩
    · rw [if_neg hcond] at h2
      cases h2

theorem escolherLoop_elig {cont : List ContRecord} {used : List ℕ} {tol : ℚ}
    {usarData : Bool} {f : FinRecord} (cand : List ℕ) :
    ∀ (best : Option (ℕ × ContRecord)) (bs : ℚ),
      (∀ j r, best = some (j, r) → eligCheck cont used tol usarData f j = some r) →
      ∀ {j : ℕ} {r : ContRecord},
        escolherLoop cont used tol usarData f cand best bs = some (j, r) →
        eligCheck cont used tol usarData f j = some r := by
  induction cand with
  | nil =>
    intro best bs hbest j r h
    exact hbest j r h
  | cons c rest ih =>
    intro best bs hbest j r h
    simp only [escolherLoop] at h
    cases hec : eligCheck cont used tol usarData f c with
    | none =>
      rw [hec] at h
      exact ih best bs hbest h
    | some rc =>
      have h2 : (if bs < score_match f.textoNorm rc.histNorm f.textoNum rc.histNum
          (if usarData then f.data else none) (if usarData then rc.data else none)
          usarData f.idFin rc.ident then
            escolherLoop cont used tol usarData f rest (some (c, rc))
              (score_match f.textoNorm rc.histNorm f.textoNum rc.histNum
                (if usarData then f.data else none) (if usarData then rc.data else none)
                usarData f.idFin rc.ident)
          else escolherLoop cont used tol usarData f rest best bs) = some (j, r) := by
        rw [hec] at h
        exact h
      by_cases hlt : bs < score_match f.textoNorm rc.histNorm f.textoNum rc.histNum
          (if usarData then f.data else none) (if usarData then rc.data else none)
          usarData f.idFin rc.ident
      · rw [if_pos hlt] at h2
        refine ih _ _ ?_ h2
        intro j0 r0 heq
        rw [Option.some.injEq, Prod.mk.injEq] at heq
        rw [← heq.1, ← heq.2]
        exact hec
      · rw [if_neg hlt] at h2
        exact ih best bs hbest h2

theorem escolher_elig {cont : List ContRecord} {used : List ℕ} {tol : ℚ} {usarData : Bool}
    {f : FinRecord} {j : ℕ} {r : ContRecord}
    (h : escolher cont used tol usarData f = some (j, r)) :
    eligCheck cont used tol usarData f j = some r :=
  escolherLoop_elig _ none (-1) (fun _ _ heq => Option.noConfusion heq) h

theorem conciliarLoop_used_mono {cont : List ContRecord} {tol : ℚ} {minLen : ℕ}
    {usarData : Bool} :
    ∀ (fin : List FinRecord) (i : ℕ) (used : List ℕ) {j : ℕ}, j ∈ used →
      j ∈ (conciliarLoop cont tol minLen usarData fin i used).2 := by
  intro fin
  induction fin with
  | nil =>
    intro i used j hj
    simpa [conciliarLoop] using hj
  | cons f rest ih =>
    intro i used j hj
    simp only [conciliarLoop]
    split
    · exact ih _ _ hj
    · cases hesc : escolher cont used tol usarData f with
      | some jr => exact ih _ _ (List.mem_cons_of_mem _ hj)
      | none => exact ih _ _ hj

/-! ### conciliar: unfolding equations and counting helpers -/

theorem conciliarLoop_cons_skip {cont : List ContRecord} {tol : ℚ} {minLen : ℕ}
    {usarData : Bool} {f : FinRecord} {rest : List FinRecord} {i : ℕ} {used : List ℕ}
    (h : skipFin minLen f = true) :
    conciliarLoop cont tol minLen usarData (f :: rest) i used =
      conciliarLoop cont tol minLen usarData rest (i + 1) used := by
  simp [conciliarLoop, h]

theorem conciliarLoop_cons_some {cont : List ContRecord} {tol : ℚ} {minLen : ℕ}
    {usarData : Bool} {f : FinRecord} {rest : List FinRecord} {i : ℕ} {used : List ℕ}
    {j0 : ℕ} {r0 : ContRecord} (h : skipFin minLen f = false)
    (hesc : escolher cont used tol usarData f = some (j0, r0)) :
    conciliarLoop cont tol minLen usarData (f :: rest) i used =
      (okRow i f j0 r0 ::
        (conciliarLoop cont tol minLen usarData rest (i + 1) (j0 :: used)).1,
       (conciliarLoop cont tol minLen usarData rest (i + 1) (j0 :: used)).2) := by
  simp [conciliarLoop, h, hesc]

theorem conciliarLoop_cons_none {cont : List ContRecord} {tol : ℚ} {minLen : ℕ}
    {usarData : Bool} {f : FinRecord} {rest : List FinRecord} {i : ℕ} {used : List ℕ}
    (h : skipFin minLen f = false) (hesc : escolher cont used tol usarData f = none) :
    conciliarLoop cont tol minLen usarData (f :: rest) i used =
      (divRowFin i f :: (conciliarLoop cont tol minLen usarData rest (i + 1) used).1,
       (conciliarLoop cont tol minLen usarData rest (i + 1) used).2) := by
  simp [conciliarLoop, h, hesc]

theorem contCount_cons_eq {row : MatchRow} {rows : List MatchRow} {j : ℕ}
    (h : row.contIdx = some j) : contCount (row :: rows) j = contCount rows j + 1 := by
  rw [contCount, contCount, List.countP_cons]
  simp [h]

theorem contCount_cons_ne {row : MatchRow} {rows : List MatchRow} {j : ℕ}
    (h : row.contIdx ≠ some j) : contCount (row :: rows) j = contCount rows j := by
  rw [contCount, contCount, List.countP_cons]
  simp [h]

theorem finCount_cons_eq {row : MatchRow} {rows : List MatchRow} {i : ℕ}
    (h : row.finIdx = some i) : finCount (row :: rows) i = finCount rows i + 1 := by
  rw [finCount, finCount, List.countP_cons]
  simp [h]

theorem finCount_cons_ne {row : MatchRow} {rows : List MatchRow} {i : ℕ}
    (h : row.finIdx ≠ some i) : finCount (row :: rows) i = finCount rows i := by
  rw [finCount, finCount, List.countP_cons]
  simp [h]

theorem finExpected_zero {minLen : ℕ} {fin : List FinRecord} {i i0 : ℕ} (h : i0 < i) :
    finExpected minLen fin i i0 = 0 := by
  unfold finExpected
  cases hget : fin.get? (i0 - i) with
  | none => rfl
  | some f =>
    show (if i ≤ i0 ∧ skipFin minLen f = false then 1 else 0) = 0
    rw [if_neg]
    rintro ⟨h1, -⟩
    omega

theorem finExpected_cons_self {minLen : ℕ} {f : FinRecord} {rest : List FinRecord} {i : ℕ} :
    finExpected minLen (f :: rest) i i = if skipFin minLen f = false then 1 else 0 := by
  unfold finExpected
  simp

theorem finExpected_cons_shift {minLen : ℕ} {f : FinRecord} {rest : List FinRecord}
    {i i0 : ℕ} (h : i < i0) :
    finExpected minLen (f :: rest) i i0 = finExpected minLen rest (i + 1) i0 := by
  unfold finExpected
  have e1 : i0 - i = (i0 - (i + 1)) + 1 := by omega
  rw [e1, List.get?_cons_succ]
  cases rest.get? (i0 - (i + 1)) with
  | none => rfl
  | some f1 =>
    show (if i ≤ i0 ∧ skipFin minLen f1 = false then 1 else 0) =
      (if i + 1 ≤ i0 ∧ skipFin minLen f1 = false then 1 else 0)
    refine if_congr ?_ rfl rfl
    constructor
    · rintro ⟨-, h2⟩
      exact ⟨by omega, h2⟩
    · rintro ⟨-, h2⟩
      exact ⟨by omega, h2⟩

/-! ### conciliar: the counting invariants of the financial loop -/

theorem conciliarLoop_contCount {cont : List ContRecord} {tol : ℚ} {minLen : ℕ}
    {usarData : Bool} :
    ∀ (fin : List FinRecord) (i : ℕ) (used : List ℕ) (j : ℕ),
      contCount (conciliarLoop cont tol minLen usarData fin i used).1 j =
        if j ∈ (conciliarLoop cont tol minLen usarData fin i used).2 ∧ j ∉ used then 1
        else 0 := by
  intro fin
  induction fin with
  | nil =>
    intro i used j
    simp [conciliarLoop, contCount]
  | cons f rest ih =>
    intro i used j
    by_cases hskip : skipFin minLen f
    · rw [conciliarLoop_cons_skip hskip]
      exact ih _ _ j
    · rw [Bool.not_eq_true] at hskip
      cases hesc : escolher cont used tol usarData f with
      | none =>
        rw [conciliarLoop_cons_none hskip hesc]
        rw [contCount_cons_ne (by simp [divRowFin])]
        exact ih _ _ j
      | some jr =>
        obtain ⟨j0, r0⟩ := jr
        rw [conciliarLoop_cons_some hskip hesc]
        have hel := eligCheck_some (escolher_elig hesc)
        have hmem0 : j0 ∈ (conciliarLoop cont tol minLen usarData rest (i + 1) (j0 :: used)).2 :=
          conciliarLoop_used_mono rest (i + 1) (j0 :: used) (List.mem_cons_self _ _)
        by_cases hj : j0 = j
        · subst hj
          rw [contCount_cons_eq (by simp [okRow]), ih]
          rw [if_neg, if_pos ⟨hmem0, hel.2.1⟩]
          rintro ⟨-, hnot⟩
          exact hnot (List.mem_cons_self _ _)
        · rw [contCount_cons_ne (by simp [okRow, hj]), ih]
          refine if_congr ?_ rfl rfl
          constructor
          · rintro ⟨h1, h2⟩
            exact ⟨h1, fun hm => h2 (List.mem_cons_of_mem _ hm)⟩
          · rintro ⟨h1, h2⟩
            refine ⟨h1, fun hm => ?_⟩
            rcases List.mem_cons.mp hm with h3 | h3
            · exact hj h3.symm
            · exact h2 h3

theorem conciliarLoop_finCount {cont : List ContRecord} {tol : ℚ} {minLen : ℕ}
    {usarData : Bool} :
    ∀ (fin : List FinRecord) (i : ℕ) (used : List ℕ) (i0 : ℕ),
      finCount (conciliarLoop cont tol minLen usarData fin i used).1 i0 =
        finExpected minLen fin i i0 := by
  intro fin
  induction fin with
  | nil =>
    intro i used i0
    simp [conciliarLoop, finCount, finExpected]
  | cons f rest ih =>
    intro i used i0
    rcases Nat.lt_trichotomy i0 i with hlt | heq | hgt
    · -- i0 < i: both sides vanish
      have hrhs := @finExpected_zero minLen (f :: rest) i i0 hlt
      have hrhs2 := @finExpected_zero minLen rest (i + 1) i0 (by omega)
      by_cases hskip : skipFin minLen f
      · rw [conciliarLoop_cons_skip hskip, ih, hrhs, hrhs2]
      · rw [Bool.not_eq_true] at hskip
        cases hesc : escolher cont used tol usarData f with
        | none =>
          rw [conciliarLoop_cons_none hskip hesc,
            finCount_cons_ne (by simp [divRowFin]; omega), ih, hrhs, hrhs2]
        | some jr =>
          obtain ⟨j0, r0⟩ := jr
          rw [conciliarLoop_cons_some hskip hesc,
            finCount_cons_ne (by simp [okRow]; omega), ih, hrhs, hrhs2]
    · -- i0 = i: the head row decides
      subst heq
      by_cases hskip : skipFin minLen f
      · rw [conciliarLoop_cons_skip hskip, ih, finExpected_zero (by omega),
          finExpected_cons_self]
        simp [hskip]
      · rw [Bool.not_eq_true] at hskip
        cases hesc : escolher cont used tol usarData f with
        | none =>
          rw [conciliarLoop_cons_none hskip hesc, finCount_cons_eq (by simp [divRowFin]),
            ih, finExpected_zero (by omega), finExpected_cons_self]
          simp [hskip]
        | some jr =>
          obtain ⟨j0, r0⟩ := jr
          rw [conciliarLoop_cons_some hskip hesc, finCount_cons_eq (by simp [okRow]),
            ih, finExpected_zero (by omega), finExpected_cons_self]
          simp [hskip]
    · -- i < i0: shift
      rw [finExpected_cons_shift hgt]
      by_cases hskip : skipFin minLen f
      · rw [conciliarLoop_cons_skip hskip, ih]
      · rw [Bool.not_eq_true] at hskip
        cases hesc : escolher cont used tol usarData f with
        | none =>
          rw [conciliarLoop_cons_none hskip hesc,
            finCount_cons_ne (by simp [divRowFin]; omega), ih]
        | some jr =>
          obtain ⟨j0, r0⟩ := jr
          rw [conciliarLoop_cons_some hskip hesc,
            finCount_cons_ne (by simp [okRow]; omega), ih]

/-! ### conciliar: the leftover pass -/

theorem sobras_aux (cont : List ContRecord) (used : List ℕ) (j : ℕ) :
    ∀ l : List ℕ, l.Nodup →
      contCount (l.filterMap (fun j' =>
        match cont.get? j' with
        | some r => if j' ∈ used then none else some (leftRow j' r)
        | none => none)) j =
      if j ∈ l ∧ j < cont.length ∧ j ∉ used then 1 else 0 := by
  intro l hl
  induction l with
  | nil => simp [contCount]
  | cons a t ih =>
    have hnd := List.nodup_cons.mp hl
    rw [List.filterMap_cons]
    cases hget : cont.get? a with
    | none =>
      have hlen : cont.length ≤ a := List.get?_eq_none.mp hget
      rw [ih hnd.2]
      refine if_congr ?_ rfl rfl
      constructor
      · rintro ⟨h1, h2⟩
        exact ⟨List.mem_cons_of_mem _ h1, h2⟩
      · rintro ⟨h1, h2, h3⟩
        rcases List.mem_cons.mp h1 with h4 | h4
        · omega
        · exact ⟨h4, h2, h3⟩
    | some r =>
      have hlen : a < cont.length := by
        by_contra hc
        rw [List.get?_eq_none.mpr (by omega)] at hget
        cases hget
      by_cases hu : a ∈ used
      · simp only [hget, if_pos hu]
        rw [ih hnd.2]
        refine if_congr ?_ rfl rfl
        constructor
        · rintro ⟨h1, h2⟩
          exact ⟨List.mem_cons_of_mem _ h1, h2⟩
        · rintro ⟨h1, h2, h3⟩
          rcases List.mem_cons.mp h1 with h4 | h4
          · subst h4
            exact absurd hu h3
          · exact ⟨h4, h2, h3⟩
      · simp only [hget, if_neg hu]
        by_cases hja : j = a
        · subst hja
          rw [contCount_cons_eq (by simp [leftRow]), ih hnd.2,
            if_neg (by rintro ⟨h1, -⟩; exact hnd.1 h1), if_pos ⟨List.mem_cons_self _ _, hlen, hu⟩]
        · rw [contCount_cons_ne (by simp [leftRow]; exact fun h => hja h.symm), ih hnd.2]
          refine if_congr ?_ rfl rfl
          constructor
          · rintro ⟨h1, h2⟩
            exact ⟨List.mem_cons_of_mem _ h1, h2⟩
          · rintro ⟨h1, h2, h3⟩
            rcases List.mem_cons.mp h1 with h4 | h4
            · exact absurd h4 hja
            · exact ⟨h4, h2, h3⟩

theorem sobras_contCount (cont : List ContRecord) (used : List ℕ) (j : ℕ) :
    contCount (sobrasCont cont used) j = if j < cont.length ∧ j ∉ used then 1 else 0 := by
  rw [sobrasCont, sobras_aux cont used j (List.range cont.length) (List.nodup_range _)]
  refine if_congr ?_ rfl rfl
  constructor
  · rintro ⟨-, h2⟩
    exact h2
  · rintro ⟨h1, h2⟩
    exact ⟨List.mem_range.mpr h1, h1, h2⟩

theorem mem_sobras {cont : List ContRecord} {used : List ℕ} {row : MatchRow}
    (h : row ∈ sobrasCont cont used) : row.status = .divergente ∧ row.finIdx = none := by
  rw [sobrasCont] at h
  rcases List.mem_filterMap.mp h with ⟨j, hj, hfm⟩
  cases hget : cont.get? j with
  | none =>
    rw [hget] at hfm
    cases hfm
  | some r =>
    rw [hget] at hfm
    have hfm2 : (if j ∈ used then none else some (leftRow j r)) = some row := hfm
    by_cases hu : j ∈ used
    · rw [if_pos hu] at hfm2
      cases hfm2
    · rw [if_neg hu] at hfm2
      injection hfm2 with h1
      subst h1
      exact ⟨rfl, rfl⟩

theorem sobras_finCount_zero (cont : List ContRecord) (used : List ℕ) (i : ℕ) :
    finCount (sobrasCont cont used) i = 0 := by
  rw [finCount, List.countP_eq_zero]
  intro row hrow
  have := (mem_sobras hrow).2
  simp [this]

theorem conciliarLoop_used_lt {cont : List ContRecord} {tol : ℚ} {minLen : ℕ}
    {usarData : Bool} :
    ∀ (fin : List FinRecord) (i : ℕ) (used : List ℕ) {j : ℕ},
      j ∈ (conciliarLoop cont tol minLen usarData fin i used).2 →
      j ∈ used ∨ j < cont.length := by
  intro fin
  induction fin with
  | nil =>
    intro i used j hj
    left
    simpa [conciliarLoop] using hj
  | cons f rest ih =>
    intro i used j hj
    by_cases hskip : skipFin minLen f
    · rw [conciliarLoop_cons_skip hskip] at hj
      exact ih _ _ hj
    · rw [Bool.not_eq_true] at hskip
      cases hesc : escolher cont used tol usarData f with
      | none =>
        rw [conciliarLoop_cons_none hskip hesc] at hj
        exact ih _ _ hj
      | some jr =>
        obtain ⟨j0, r0⟩ := jr
        rw [conciliarLoop_cons_some hskip hesc] at hj
        rcases ih _ _ hj with h1 | h1
        · rcases List.mem_cons.mp h1 with h2 | h2
          · right
            subst h2
            have hget := (eligCheck_some (escolher_elig hesc)).1
            by_contra hc
            rw [List.get?_eq_none.mpr (by omega)] at hget
            cases hget
          · left
            exact h2
        · right
          exact h1

/-! ### C1: coverage of the MatchResult sequence -/

theorem conciliar_eq (fin : List FinRecord) (cont : List ContRecord) (tol : ℚ)
    (minLen : ℕ) (usarData : Bool) :
    conciliar fin cont tol minLen usarData =
      (conciliarLoop cont tol minLen usarData fin 0 []).1 ++
        sobrasCont cont (conciliarLoop cont tol minLen usarData fin 0 []).2 := rfl

theorem contCount_append (a b : List MatchRow) (j : ℕ) :
    contCount (a ++ b) j = contCount a j + contCount b j := List.countP_append _ _ _

theorem finCount_append (a b : List MatchRow) (i : ℕ) :
    finCount (a ++ b) i = finCount a i + finCount b i := List.countP_append _ _ _

/-- C1 counterexample: a financial record whose normalized text and
identifier are both shorter than min_len is skipped by the loop and
appears in zero output rows, not one. -/
theorem C1_counterexample :
    finCount (conciliar [finCurto] [] (1 / 100) 3 false) 0 ≠ 1 := by decide

/-- C1 (amended): every accounting record appears in exactly one output
row; a financial record appears in exactly one row when its normalized
text or identifier reaches the minimum length, and in zero rows when both
fall short (the noise filter drops it silently). -/
theorem C1_amended (fin : List FinRecord) (cont : List ContRecord) (tol : ℚ)
    (minLen : ℕ) (usarData : Bool) :
    (∀ j, j < cont.length → contCount (conciliar fin cont tol minLen usarData) j = 1) ∧
    (∀ i f, fin.get? i = some f →
      finCount (conciliar fin cont tol minLen usarData) i =
        if skipFin minLen f = true then 0 else 1) := by
  constructor
  · intro j hj
    rw [conciliar_eq, contCount_append, conciliarLoop_contCount, sobras_contCount]
    by_cases hmem : j ∈ (conciliarLoop cont tol minLen usarData fin 0 []).2
    · rw [if_pos ⟨hmem, by simp⟩, if_neg (by rintro ⟨-, h2⟩; exact h2 hmem)]
    · rw [if_neg (by rintro ⟨h1, -⟩; exact hmem h1), if_pos ⟨hj, hmem⟩]
  · intro i f hget
    rw [conciliar_eq, finCount_append, conciliarLoop_finCount, sobras_finCount_zero]
    unfold finExpected
    rw [Nat.sub_zero, hget]
    show (if 0 ≤ i ∧ skipFin minLen f = false then 1 else 0) + 0 =
      if skipFin minLen f = true then 0 else 1
    cases hsk : skipFin minLen f <;> simp

theorem C1_witness :
    (0 < ([contABCD] : List ContRecord).length ∧
      contCount (conciliar [finABC] [contABCD] (1 / 100) 3 false) 0 = 1) ∧
    (([finABC] : List FinRecord).get? 0 = some finABC ∧
      finCount (conciliar [finABC] [contABCD] (1 / 100) 3 false) 0 = 1) :=
  ⟨⟨by decide, (C1_amended [finABC] [contABCD] (1 / 100) 3 false).1 0 (by decide)⟩,
   ⟨rfl, ((C1_amended [finABC] [contABCD] (1 / 100) 3 false).2 0 finABC rfl).trans
      (by decide)⟩⟩

/-! ### C5: properties of OK rows -/

theorem conciliarLoop_ok_rows {cont : List ContRecord} {tol : ℚ} {minLen : ℕ}
    {usarData : Bool} :
    ∀ (fin : List FinRecord) (i : ℕ) (used : List ℕ) {row : MatchRow},
      row ∈ (conciliarLoop cont tol minLen usarData fin i used).1 → row.status = .ok →
      row.dif = |row.valorFin - row.valorCont| ∧ |row.valorFin - row.valorCont| ≤ tol ∧
        ((row.tipoFin = some .entrada ∧ row.tipoCont = some .debito) ∨
         (row.tipoFin = some .saida ∧ row.tipoCont = some .credito)) := by
  intro fin
  induction fin with
  | nil =>
    intro i used row hrow hok
    simp [conciliarLoop] at hrow
  | cons f rest ih =>
    intro i used row hrow hok
    by_cases hskip : skipFin minLen f
    · rw [conciliarLoop_cons_skip hskip] at hrow
      exact ih _ _ hrow hok
    · rw [Bool.not_eq_true] at hskip
      cases hesc : escolher cont used tol usarData f with
      | none =>
        rw [conciliarLoop_cons_none hskip hesc] at hrow
        rcases List.mem_cons.mp hrow with h1 | h1
        · subst h1
          exact absurd hok (by simp [divRowFin])
        · exact ih _ _ h1 hok
      | some jr =>
        obtain ⟨j0, r0⟩ := jr
        rw [conciliarLoop_cons_some hskip hesc] at hrow
        rcases List.mem_cons.mp hrow with h1 | h1
        · subst h1
          obtain ⟨-, -, htol, htipo⟩ := eligCheck_some (escolher_elig hesc)
          refine ⟨rfl, htol, ?_⟩
          cases hf : f.tipo with
          | entrada =>
            left
            rw [hf] at htipo
            exact ⟨by simp [okRow, hf], by simp [okRow, htipo, tipoEsperado]⟩
          | saida =>
            right
            rw [hf] at htipo
            exact ⟨by simp [okRow, hf], by simp [okRow, htipo, tipoEsperado]⟩
        · exact ih _ _ h1 hok

/-- C5: every OK row of conciliar pairs a financial amount with an
accounting amount within the tolerance, records their absolute difference
in DIF, and pairs ENTRADA with DEBITO and SAIDA with CREDITO. -/
theorem C5_linhas_ok (fin : List FinRecord) (cont : List ContRecord) (tol : ℚ)
    (minLen : ℕ) (usarData : Bool) (row : MatchRow)
    (hmem : row ∈ conciliar fin cont tol minLen usarData) (hok : row.status = .ok) :
    row.dif = |row.valorFin - row.valorCont| ∧ |row.valorFin - row.valorCont| ≤ tol ∧
      ((row.tipoFin = some .entrada ∧ row.tipoCont = some .debito) ∨
       (row.tipoFin = some .saida ∧ row.tipoCont = some .credito)) := by
  rw [conciliar_eq] at hmem
  rcases List.mem_append.mp hmem with h | h
  · exact conciliarLoop_ok_rows fin 0 [] h hok
  · rw [(mem_sobras h).1] at hok
    cases hok

theorem C5_witness :
    okRow 0 finABC 0 contABCD ∈ conciliar [finABC] [contABCD] (1 / 100) 3 false ∧
    ((okRow 0 finABC 0 contABCD).dif =
        |(okRow 0 finABC 0 contABCD).valorFin - (okRow 0 finABC 0 contABCD).valorCont| ∧
      |(okRow 0 finABC 0 contABCD).valorFin - (okRow 0 finABC 0 contABCD).valorCont| ≤ 1 / 100 ∧
      (((okRow 0 finABC 0 contABCD).tipoFin = some .entrada ∧
          (okRow 0 finABC 0 contABCD).tipoCont = some .debito) ∨
        ((okRow 0 finABC 0 contABCD).tipoFin = some .saida ∧
          (okRow 0 finABC 0 contABCD).tipoCont = some .credito))) :=
  ⟨by decide,
    C5_linhas_ok [finABC] [contABCD] (1 / 100) 3 false (okRow 0 finABC 0 contABCD)
      (by decide) rfl⟩

/-! ### C2: at-most-one consumption, and what realizar_matching does -/

/-- C2 counterexample: with two invoices of equal value and a single
receipt, the receipt bucket appears in two entries of the matches list. -/
theorem C2_counterexample :
    ¬ ((realizar_matching [(nfN1, bucketNF nfN1), (nfN2, bucketNF nfN2)]
          [(recR1, bucketRec recR1)]).matchEntries.countP
        (fun e => e.recNumero == recR1) ≤ 1) := by decide

/-- C2 (amended): in conciliar no accounting-side index appears in more
than one OK row; in realizar_matching, however, every (invoice, receipt)
pair whose net values differ by strictly less than 0.01 contributes its
own entry to the matches list, so a bucket is consumed once per partner,
possibly several times. -/
theorem C2_amended (fin : List FinRecord) (cont : List ContRecord) (tol : ℚ)
    (minLen : ℕ) (usarData : Bool) (nfs recs : List (List Char × Bucket)) :
    (∀ j, (conciliar fin cont tol minLen usarData).countP
        (fun row => row.status == Status.ok && row.contIdx == some j) ≤ 1) ∧
    (∀ nf ∈ nfs, ∀ rc ∈ recs, |nf.2.valorLiquido - rc.2.valorLiquido| < 1 / 100 →
      ({ nfNumero := nf.1, nfValor := nf.2.valorLiquido, recNumero := rc.1,
         recValor := rc.2.valorLiquido,
         diferenca := nf.2.valorLiquido - rc.2.valorLiquido } : MatchEntry) ∈
        (realizar_matching nfs recs).matchEntries) := by
  constructor
  · intro j
    rw [conciliar_eq, List.countP_append]
    have h2 : (sobrasCont cont (conciliarLoop cont tol minLen usarData fin 0 []).2).countP
        (fun row => row.status == Status.ok && row.contIdx == some j) = 0 := by
      rw [List.countP_eq_zero]
      intro row hrow
      simp [(mem_sobras hrow).1]
    rw [h2, Nat.add_zero]
    have hmono : (conciliarLoop cont tol minLen usarData fin 0 []).1.countP
        (fun row => row.status == Status.ok && row.contIdx == some j) ≤
        (conciliarLoop cont tol minLen usarData fin 0 []).1.countP
          (fun row => row.contIdx == some j) := by
      apply List.countP_mono_left
      intro row hrow h
      simp only [Bool.and_eq_true] at h
      exact h.2
    refine hmono.trans ?_
    have hc := @conciliarLoop_contCount cont tol minLen usarData fin 0 [] j
    rw [contCount] at hc
    rw [hc]
    split <;> omega
  · intro nf hnf rc hrc htol
    show _ ∈ (List.map (fun nf => matchesFor nf recs) nfs).flatten
    rw [List.mem_flatten]
    refine ⟨matchesFor nf recs, List.mem_map_of_mem _ hnf, ?_⟩
    rw [matchesFor, List.mem_filterMap]
    exact ⟨rc, hrc, by rw [if_pos htol]⟩

theorem C2_witness :
    ((conciliar [finABC] [contABCD] (1 / 100) 3 false).countP
      (fun row => row.status == Status.ok && row.contIdx == some 0) ≤ 1) ∧
    ((nfN1, bucketNF nfN1) ∈ [(nfN1, bucketNF nfN1)] ∧
      (recR1, bucketRec recR1) ∈ [(recR1, bucketRec recR1)] ∧
      |(bucketNF nfN1).valorLiquido - (bucketRec recR1).valorLiquido| < 1 / 100 ∧
      ({ nfNumero := nfN1, nfValor := (bucketNF nfN1).valorLiquido, recNumero := recR1,
         recValor := (bucketRec recR1).valorLiquido,
         diferenca := (bucketNF nfN1).valorLiquido - (bucketRec recR1).valorLiquido } :
          MatchEntry) ∈
        (realizar_matching [(nfN1, bucketNF nfN1)] [(recR1, bucketRec recR1)]).matchEntries) :=
  ⟨(C2_amended [finABC] [contABCD] (1 / 100) 3 false [] []).1 0,
   ⟨by decide, by decide, by decide,
     (C2_amended [finABC] [contABCD] (1 / 100) 3 false [(nfN1, bucketNF nfN1)]
        [(recR1, bucketRec recR1)]).2 (nfN1, bucketNF nfN1) (by decide)
        (recR1, bucketRec recR1) (by decide) (by decide)⟩⟩

/-! ### C3: what pairing realizar_matching actually performs -/

theorem mem_keysOf_filter_iff {l : List (List Char × Bucket)} {p : Bucket → Bool}
    (hn : (l.map (fun e => e.1)).Nodup) {x : List Char × Bucket} (hx : x ∈ l) :
    x.1 ∈ (l.filter (fun e => p e.2)).map (fun e => e.1) ↔ p x.2 = true := by
  constructor
  · intro h
    rcases List.mem_map.mp h with ⟨e, he, hkey⟩
    have he2 := List.mem_filter.mp he
    have heq : e = x := List.inj_on_of_nodup_map hn he2.1 hx hkey
    rw [← heq]
    exact he2.2
  · intro h
    exact List.mem_map_of_mem _ (List.mem_filter.mpr ⟨hx, h⟩)

/-- C3 counterexample: one invoice and two receipts of the same net
value; the invoice is matched twice, not once against the first receipt. -/
theorem C3_counterexample :
    ¬ ((realizar_matching [(nfN1, bucketNF nfN1)]
          [(recR1, bucketRec recR1), (recR2, bucketRec recR2)]).matchEntries.countP
        (fun e => e.nfNumero == nfN1) ≤ 1) := by decide

/-- C3 (amended): realizar_matching appends one match entry for every
receipt whose net value differs from the invoice's by strictly less than
0.01 — nothing is consumed and the scan does not stop at the first hit —
and the leftover lists hold exactly the buckets with no partner within
that strict tolerance, in source order. -/
theorem C3_amended (nfs recs : List (List Char × Bucket))
    (hn : (nfs.map (fun e => e.1)).Nodup) (hr : (recs.map (fun e => e.1)).Nodup) :
    (realizar_matching nfs recs).matchEntries =
      (nfs.map (fun nf => matchesFor nf recs)).flatten ∧
    (realizar_matching nfs recs).nao_encontrados_nf =
      (nfs.filter (fun nf => !(temParceiro nf.2 recs))).map (fun e => e.2) ∧
    (realizar_matching nfs recs).nao_encontrados_rec =
      (recs.filter (fun rc => !(temParceiro rc.2 nfs))).map (fun e => e.2) := by
  refine ⟨rfl, ?_, ?_⟩
  · show (nfs.filter (fun nf => ¬ nf.1 ∈ nfsMatcheadas nfs recs)).map (fun e => e.2) = _
    congr 1
    apply List.filter_congr
    intro x hx
    have hiff : x.1 ∈ nfsMatcheadas nfs recs ↔ temParceiro x.2 recs = true :=
      @mem_keysOf_filter_iff nfs (fun b => temParceiro b recs) hn x hx
    by_cases hp : temParceiro x.2 recs
    · simp [hiff, hp]
    · simp only [Bool.not_eq_true] at hp
      simp [hiff, hp]
  · show (recs.filter (fun rc => ¬ rc.1 ∈ recsMatcheados nfs recs)).map (fun e => e.2) = _
    congr 1
    apply List.filter_congr
    intro x hx
    have hiff : x.1 ∈ recsMatcheados nfs recs ↔ temParceiro x.2 nfs = true :=
      @mem_keysOf_filter_iff recs (fun b => temParceiro b nfs) hr x hx
    by_cases hp : temParceiro x.2 nfs
    · simp [hiff, hp]
    · simp only [Bool.not_eq_true] at hp
      simp [hiff, hp]

theorem C3_witness :
    ((([(nfN1, bucketNF nfN1)] : List (List Char × Bucket)).map (fun e => e.1)).Nodup ∧
      (([(recR1, bucketRec recR1)] : List (List Char × Bucket)).map (fun e => e.1)).Nodup) ∧
    (realizar_matching [(nfN1, bucketNF nfN1)] [(recR1, bucketRec recR1)]).nao_encontrados_nf =
      (([(nfN1, bucketNF nfN1)] : List (List Char × Bucket)).filter
        (fun nf => !(temParceiro nf.2 [(recR1, bucketRec recR1)]))).map (fun e => e.2) :=
  ⟨⟨by decide, by decide⟩,
    (C3_amended [(nfN1, bucketNF nfN1)] [(recR1, bucketRec recR1)]
      (by decide) (by decide)).2.1⟩

end Portal
